import Mathlib

/-!
Verification development for the `visualiser` example of the
`ether-dream` DAC emulator (src/dac-emulator/examples/visualiser.rs).

The example is a nannou app.  Its `event` function runs once per update
tick: it polls an mpsc channel for newly accepted streams, drains the
active stream with a non-blocking `try_next_frame` loop keeping only the
latest frame, and stores the samples of that frame in
`model.frame_points`.  Its `view` function converts every sample to
render coordinates and draws one line segment per consecutive pair of
samples.

We embed the update tick as a function on an explicit model state, the
per-tick results of `try_next_frame` as a list (or an infinite sequence,
for the termination question), and the floating-point arithmetic of the
view function in exact rational arithmetic.
-/

namespace Visualiser

/-- The fields of `ether_dream::protocol::DacPoint` that the visualiser
example reads: the signed 16-bit position `x`, `y` and the unsigned
16-bit colour channels `r`, `g`, `b`.  Range constraints are stated as
hypotheses where a theorem needs them. -/
structure DacPoint where
  x : Int
  y : Int
  r : Nat
  g : Nat
  b : Nat
  deriving Repr, DecidableEq

/-- An active stream handed over by the listener thread
(`listener::ActiveStream`), identified by an opaque handle. -/
abbrev Conn := Nat

/-- A frame as delivered by `try_next_frame`: the ordered samples that
`frame.iter().cloned()` yields. -/
abbrev Frame := List DacPoint

/-- One result of `output.try_next_frame()`:
`Err(_)`, `Ok(None)` or `Ok(Some(frame))`. -/
inductive PollRes where
  | err : PollRes
  | okNone : PollRes
  | okSome : Frame → PollRes
  deriving Repr, DecidableEq

/-- The part of the `Model` struct that the update tick manipulates:
the optional active stream and the currently displayed frame points.
(The broadcaster handle and the receiver endpoint are threaded through
unchanged by `event` and are modelled as the `pending`/`outputs`
arguments of `tick` instead.) -/
structure Model where
  stream : Option Conn
  framePoints : List DacPoint
  deriving Repr, DecidableEq

/-- The drain loop of `event` over the list of results that successive
`try_next_frame` calls return this tick.  On `Err` the code prints and
calls `model.stream.take()` and keeps looping; on `Ok(None)` it breaks;
on `Ok(Some(frame))` it records the frame as the latest and keeps
looping.  The result is the stream field, the latest recorded frame and
the number of times `take()` actually released a stream; `none` means
the supplied results were exhausted without the loop breaking. -/
def drainLoop : Option Conn → Option Frame → Nat → List PollRes →
    Option (Option Conn × Option Frame × Nat)
  | _, _, _, [] => none
  | some _, latest, k, PollRes.err :: rest => drainLoop none latest (k + 1) rest
  | none, latest, k, PollRes.err :: rest => drainLoop none latest k rest
  | stream, latest, k, PollRes.okNone :: _ => some (stream, latest, k)
  | stream, _, k, PollRes.okSome f :: rest => drainLoop stream (some f) k rest

/-- The prefix of a result list that the drain loop consumes: everything
up to and including the first `Ok(None)` (the whole list if the loop
never breaks). -/
def consumed : List PollRes → List PollRes
  | [] => []
  | PollRes.okNone :: _ => [PollRes.okNone]
  | r :: rest => r :: consumed rest

/-- One update tick (`Event::Update` branch of `event`).  `pending` is
the result of the single `stream_rx.try_recv()` of the tick; `outputs`
gives, per stream, the results the successive `try_next_frame` calls on
that stream return this tick.  Returns the post-tick model paired with
the number of stream releases performed by the drain loop, or `none`
when the drain loop never breaks (the tick does not complete). -/
def tickFull (m : Model) (pending : Option Conn)
    (outputs : Conn → List PollRes) : Option (Model × Nat) :=
  -- Check for stream connections: `if let Ok((stream, addr)) = try_recv()`.
  let m1 : Model :=
    match pending with
    | some c => { m with stream := some c }
    | none => m
  -- Check for new frames: `if let Some(output) = model.stream.as_ref().map(..)`.
  match m1.stream with
  | none => some (m1, 0)
  | some c =>
    match drainLoop (some c) none 0 (outputs c) with
    | none => none
    | some (st, latest, k) =>
      let m2 : Model := { m1 with stream := st }
      -- `if let Some(frame) = latest_frame { clear; extend }`.
      match latest with
      | some f => some ({ m2 with framePoints := f }, k)
      | none => some (m2, k)

/-- The post-tick model (first component of `tickFull`). -/
def tick (m : Model) (pending : Option Conn)
    (outputs : Conn → List PollRes) : Option Model :=
  (tickFull m pending outputs).map Prod.fst

/-- How many times the tick released a stream via `model.stream.take()`
on a stream that was still present. -/
def tickReleases (m : Model) (pending : Option Conn)
    (outputs : Conn → List PollRes) : Nat :=
  ((tickFull m pending outputs).map Prod.snd).getD 0

/-- The stream the drain loop of the tick polls, if any: the freshly
received stream when one is pending, otherwise the current one. -/
def activeConn (m : Model) (pending : Option Conn) : Option Conn :=
  match pending with
  | some c => some c
  | none => m.stream

/-- The `try_next_frame` results the tick consumes. -/
def tickConsumed (m : Model) (pending : Option Conn)
    (outputs : Conn → List PollRes) : List PollRes :=
  match activeConn m pending with
  | none => []
  | some c => consumed (outputs c)

/-- The drain loop run against an infinite supply of `try_next_frame`
results, with explicit fuel: `none` means the loop has not broken within
`fuel` iterations.  Used for the termination question. -/
def drainLoopSeq (stream : Option Conn) (latest : Option Frame)
    (res : Nat → PollRes) : Nat → Option (Option Conn × Option Frame)
  | 0 => none
  | fuel + 1 =>
    match res 0 with
    | PollRes.err => drainLoopSeq none latest (fun n => res (n + 1)) fuel
    | PollRes.okNone => some (stream, latest)
    | PollRes.okSome f => drainLoopSeq stream (some f) (fun n => res (n + 1)) fuel

/-- The hand-off channel created by `mpsc::channel()` in `model`: an
unbounded asynchronous FIFO queue of accepted streams. -/
abbrev Channel := List Conn

/-- `Sender::send`: appends to the queue; total, it never blocks and
never drops a message. -/
def Channel.send (q : Channel) (c : Conn) : Channel := q ++ [c]

/-- `Receiver::try_recv`: pops the oldest element if one is present. -/
def Channel.tryRecv : Channel → Option Conn × Channel
  | [] => (none, [])
  | c :: rest => (some c, rest)

/-- Modelled from the spec (for comparison with `Channel.send` only):
a `send` on a bounded hand-off channel of capacity `cap` as claim C4
describes it, which succeeds only while the queue is below capacity and
otherwise blocks the sender (modelled as `none`). -/
def boundedSend (cap : Nat) (q : List Conn) (c : Conn) : Option (List Conn) :=
  if q.length < cap then some (q ++ [c]) else none

/-!
The `view` function, in exact rational arithmetic (the code computes in
`f32`; every claim about it is stated up to an explicit tolerance, so we
idealise the rounding away).
-/

/-- The position scaling of `view` before the viewport factor:
`xi as f32 / std::i16::MAX as f32`, with `i16::MAX = 32767`. -/
def tNormPos (xi : Int) : ℚ := (xi : ℚ) / 32767

/-- The closure `t_x` of `view`: `(xi / 32767) * win_rect.w() * 0.5`. -/
def t_x (xi : Int) (w : ℚ) : ℚ := tNormPos xi * w * (1 / 2)

/-- The closure `t_y` of `view`: `(yi / 32767) * win_rect.h() * 0.5`. -/
def t_y (yi : Int) (h : ℚ) : ℚ := tNormPos yi * h * (1 / 2)

/-- The closure `t_color` of `view`:
`color as f32 / std::u16::MAX as f32`, with `u16::MAX = 65535`. -/
def t_color (color : Nat) : ℚ := (color : ℚ) / 65535

/-- The value `convert_point` produces for one sample: the render-space
point and the colour triple. -/
structure RenderPoint where
  px : ℚ
  py : ℚ
  r : ℚ
  g : ℚ
  b : ℚ
  deriving Repr, DecidableEq

/-- The closure `convert_point` of `view`, for window extents `w`, `h`. -/
def convert_point (w h : ℚ) (pt : DacPoint) : RenderPoint :=
  { px := t_x pt.x w
    py := t_y pt.y h
    r := t_color pt.r
    g := t_color pt.g
    b := t_color pt.b }

/-- One `draw.line().points(ap, bp).rgb(ar, ag, ab)` call: endpoints and
the colour actually passed (the second point colour is bound but
unused in the code). -/
structure Segment where
  a : ℚ × ℚ
  b : ℚ × ℚ
  color : ℚ × ℚ × ℚ
  deriving Repr, DecidableEq

/-- The segment emitted for one `windows(2)` window: endpoints from both
samples, colour from the first sample only. -/
def mkSeg (w h : ℚ) (pa pb : DacPoint) : Segment :=
  let ca := convert_point w h pa
  let cb := convert_point w h pb
  { a := (ca.px, ca.py), b := (cb.px, cb.py), color := (ca.r, ca.g, ca.b) }

/-- `slice::windows(2)` on a list: all consecutive pairs in order. -/
def windows2 : List DacPoint → List (DacPoint × DacPoint)
  | pa :: pb :: rest => (pa, pb) :: windows2 (pb :: rest)
  | _ => []

/-- The draw calls `view` emits for the displayed frame points:
`for window in model.frame_points.windows(2) { draw.line()... }`. -/
def view (w h : ℚ) (framePoints : List DacPoint) : List Segment :=
  (windows2 framePoints).map fun ab => mkSeg w h ab.1 ab.2

/-! ### Helper lemmas about the drain loop -/

/-- Draining a run of frame deliveries followed by `Ok(None)` keeps the
stream, records the last frame and releases nothing. -/
theorem drainLoop_map_okSome (st : Option Conn) (latest : Option Frame) (k : Nat)
    (frames : List Frame) (fk : Frame) (h : frames.getLast? = some fk) :
    drainLoop st latest k (frames.map PollRes.okSome ++ [PollRes.okNone]) =
      some (st, some fk, k) := by
  induction frames generalizing latest with
  | nil => simp at h
  | cons f fs ih =>
    cases fs with
    | nil =>
      simp at h
      subst h
      cases st <;> rfl
    | cons g gs =>
      rw [List.getLast?_cons_cons] at h
      simpa [drainLoop] using ih (some f) h

/-- If the consumed prefix holds no `Err`, the drain loop breaks with the
stream intact and no release. -/
theorem drainLoop_no_err (st : Option Conn) (latest : Option Frame) (k : Nat)
    (rs : List PollRes) (hb : PollRes.okNone ∈ rs)
    (hne : PollRes.err ∉ consumed rs) :
    ∃ latest2, drainLoop st latest k rs = some (st, latest2, k) := by
  induction rs generalizing latest with
  | nil => cases hb
  | cons r rest ih =>
    cases r with
    | err => exact absurd (by simp [consumed]) hne
    | okNone => exact ⟨latest, by cases st <;> rfl⟩
    | okSome f =>
      have hb2 : PollRes.okNone ∈ rest := by
        rcases List.mem_cons.mp hb with h | h
        · cases h
        · exact h
      have hne2 : PollRes.err ∉ consumed rest := by
        intro hmem
        exact hne (by simp [consumed, hmem])
      simpa [drainLoop] using ih (some f) hb2 hne2

/-- Once the stream has been taken, further polls release nothing more. -/
theorem drainLoop_stream_gone (latest : Option Frame) (k : Nat)
    (rs : List PollRes) (hb : PollRes.okNone ∈ rs) :
    ∃ latest2, drainLoop none latest k rs = some (none, latest2, k) := by
  induction rs generalizing latest with
  | nil => cases hb
  | cons r rest ih =>
    have hb2 : PollRes.okNone ∈ rest ∨ r = PollRes.okNone := by
      rcases List.mem_cons.mp hb with h | h
      · exact Or.inr h.symm
      · exact Or.inl h
    cases r with
    | err =>
      rcases hb2 with h | h
      · simpa [drainLoop] using ih latest h
      · cases h
    | okNone => exact ⟨latest, rfl⟩
    | okSome f =>
      rcases hb2 with h | h
      · simpa [drainLoop] using ih (some f) h
      · cases h

/-- If the consumed prefix holds an `Err`, the drain loop breaks with the
stream taken and exactly one release performed. -/
theorem drainLoop_err (c : Conn) (latest : Option Frame) (k : Nat)
    (rs : List PollRes) (hb : PollRes.okNone ∈ rs)
    (he : PollRes.err ∈ consumed rs) :
    ∃ latest2, drainLoop (some c) latest k rs = some (none, latest2, k + 1) := by
  induction rs generalizing latest with
  | nil => cases hb
  | cons r rest ih =>
    cases r with
    | err =>
      have hb2 : PollRes.okNone ∈ rest := by
        rcases List.mem_cons.mp hb with h | h
        · cases h
        · exact h
      obtain ⟨l2, h2⟩ := drainLoop_stream_gone latest (k + 1) rest hb2
      exact ⟨l2, by simpa [drainLoop] using h2⟩
    | okNone => simp [consumed] at he
    | okSome f =>
      have hb2 : PollRes.okNone ∈ rest := by
        rcases List.mem_cons.mp hb with h | h
        · cases h
        · exact h
      have he2 : PollRes.err ∈ consumed rest := by
        simpa [consumed] using he
      simpa [drainLoop] using ih (some f) hb2 he2

/-- The stream field the drain loop returns is either the one it started
with or `none` (a stream is never invented). -/
theorem drainLoop_stream_cases (st : Option Conn) (latest : Option Frame) (k : Nat)
    (rs : List PollRes) (st2 : Option Conn) (latest2 : Option Frame) (k2 : Nat)
    (h : drainLoop st latest k rs = some (st2, latest2, k2)) :
    st2 = st ∨ st2 = none := by
  induction rs generalizing st latest k with
  | nil => simp [drainLoop] at h
  | cons r rest ih =>
    cases r with
    | err =>
      cases st with
      | none =>
        simp only [drainLoop] at h
        exact Or.inr ((ih none latest k h).elim id id)
      | some c =>
        simp only [drainLoop] at h
        exact Or.inr ((ih none latest (k + 1) h).elim id id)
    | okNone =>
      simp only [drainLoop, Option.some.injEq, Prod.mk.injEq] at h
      exact Or.inl h.1.symm
    | okSome f =>
      simp only [drainLoop] at h
      exact ih st (some f) k h

/-- If the consumed prefix holds no frame delivery, the latest-frame
accumulator is returned unchanged. -/
theorem drainLoop_latest_of_no_frame (st : Option Conn) (latest : Option Frame)
    (k : Nat) (rs : List PollRes) (st2 : Option Conn) (latest2 : Option Frame)
    (k2 : Nat) (h : drainLoop st latest k rs = some (st2, latest2, k2))
    (hnf : ∀ f, PollRes.okSome f ∉ consumed rs) :
    latest2 = latest := by
  induction rs generalizing st latest k with
  | nil => simp [drainLoop] at h
  | cons r rest ih =>
    cases r with
    | err =>
      have hnf2 : ∀ f, PollRes.okSome f ∉ consumed rest := by
        intro f hmem
        exact hnf f (by simp [consumed, hmem])
      cases st with
      | none =>
        simp only [drainLoop] at h
        exact ih none latest k h hnf2
      | some c =>
        simp only [drainLoop] at h
        exact ih none latest (k + 1) h hnf2
    | okNone =>
      simp only [drainLoop, Option.some.injEq, Prod.mk.injEq] at h
      exact h.2.1.symm
    | okSome f => exact absurd (by simp [consumed]) (hnf f)

/-! ### Helper lemmas about the tick -/

/-- When a stream is active at drain time and the drain loop breaks, the
tick ends with the stream the drain returned, the latest drained frame
displayed (or the old frame points when none was drained), and the drain
release count. -/
theorem tickFull_connected (m : Model) (c : Conn) (pending : Option Conn)
    (outputs : Conn → List PollRes) (st : Option Conn) (latest : Option Frame)
    (k : Nat) (hc : activeConn m pending = some c)
    (hd : drainLoop (some c) none 0 (outputs c) = some (st, latest, k)) :
    tickFull m pending outputs =
      some ({ stream := st, framePoints := latest.getD m.framePoints }, k) := by
  cases pending with
  | some c0 =>
    have hc0 : c0 = c := by simpa [activeConn] using hc
    subst hc0
    cases latest <;> simp [tickFull, hd]
  | none =>
    have hs : m.stream = some c := by simpa [activeConn] using hc
    cases latest <;> simp [tickFull, hs, hd]

/-- When a stream is active at drain time and the drain loop never
breaks, the tick never completes. -/
theorem tickFull_stuck (m : Model) (c : Conn) (pending : Option Conn)
    (outputs : Conn → List PollRes) (hc : activeConn m pending = some c)
    (hd : drainLoop (some c) none 0 (outputs c) = none) :
    tickFull m pending outputs = none := by
  cases pending with
  | some c0 =>
    have hc0 : c0 = c := by simpa [activeConn] using hc
    subst hc0
    simp [tickFull, hd]
  | none =>
    have hs : m.stream = some c := by simpa [activeConn] using hc
    simp [tickFull, hs, hd]

/-- Inversion: a completed tick with an active stream comes from a drain
result whose stream field and latest frame determine the new model. -/
theorem tick_some_inv (m : Model) (c : Conn) (pending : Option Conn)
    (outputs : Conn → List PollRes) (m' : Model)
    (hc : activeConn m pending = some c)
    (h : tick m pending outputs = some m') :
    ∃ latest k, drainLoop (some c) none 0 (outputs c) = some (m'.stream, latest, k) ∧
      m'.framePoints = latest.getD m.framePoints := by
  cases hd : drainLoop (some c) none 0 (outputs c) with
  | none =>
    rw [tick, tickFull_stuck m c pending outputs hc hd] at h
    cases h
  | some t =>
    obtain ⟨st, latest, k⟩ := t
    rw [tick, tickFull_connected m c pending outputs st latest k hc hd] at h
    simp only [Option.map_some', Option.some.injEq] at h
    subst h
    exact ⟨latest, k, by simp [hd], rfl⟩

/-- A tick with no stream active at drain time leaves the model as the
connection-adoption step left it. -/
theorem tickFull_idle (m : Model) (pending : Option Conn)
    (outputs : Conn → List PollRes) (hc : activeConn m pending = none) :
    tickFull m pending outputs = some (m, 0) := by
  cases pending with
  | some c0 => simp [activeConn] at hc
  | none =>
    have hs : m.stream = none := by simpa [activeConn] using hc
    simp [tickFull, hs]

/-! ### Claim theorems -/

/-- C1: when the lifecycle is Connected and this tick drains
Ok(Some F1), ..., Ok(Some Fk) followed by Ok(None), the displayed frame
after the tick is exactly the samples of the last drained frame Fk; the
earlier drained frames are discarded and never displayed. -/
theorem drain_to_latest_displays_last_frame (m : Model) (c : Conn)
    (frames : List Frame) (fk : Frame) (outputs : Conn → List PollRes)
    (hs : m.stream = some c)
    (ho : outputs c = frames.map PollRes.okSome ++ [PollRes.okNone])
    (hl : frames.getLast? = some fk) :
    tick m none outputs = some { stream := some c, framePoints := fk } := by
  have hd : drainLoop (some c) none 0 (outputs c) = some (some c, some fk, 0) := by
    rw [ho]
    exact drainLoop_map_okSome (some c) none 0 frames fk hl
  have hc : activeConn m none = some c := by simpa [activeConn] using hs
  rw [tick, tickFull_connected m c none outputs (some c) (some fk) 0 hc hd]
  rfl

/-- Witness for C1: two frames drained in one tick, the second one is
the one displayed afterwards. -/
theorem drain_to_latest_displays_last_frame_witness :
    tick ⟨some 0, []⟩ none
        (fun _ => [PollRes.okSome [⟨1, 2, 3, 4, 5⟩], PollRes.okSome [⟨6, 7, 8, 9, 10⟩],
          PollRes.okNone]) =
      some ⟨some 0, [⟨6, 7, 8, 9, 10⟩]⟩ :=
  drain_to_latest_displays_last_frame ⟨some 0, []⟩ 0
    [[⟨1, 2, 3, 4, 5⟩], [⟨6, 7, 8, 9, 10⟩]] [⟨6, 7, 8, 9, 10⟩] _ rfl rfl rfl

/-- C10: a frame drained in the same tick as a stream error is still
published: on results Ok(Some F), Err, Ok(None) the tick both drops the
stream and replaces the displayed frame with the samples of F, because
the publish happens after the drain loop regardless of the lifecycle
transition. -/
theorem err_tick_still_publishes_latest (m : Model) (c : Conn) (f : Frame)
    (outputs : Conn → List PollRes) (hs : m.stream = some c)
    (ho : outputs c = [PollRes.okSome f, PollRes.err, PollRes.okNone]) :
    tick m none outputs = some { stream := none, framePoints := f } := by
  have hd : drainLoop (some c) none 0 (outputs c) = some (none, some f, 1) := by
    rw [ho]
    simp [drainLoop]
  have hc : activeConn m none = some c := by simpa [activeConn] using hs
  rw [tick, tickFull_connected m c none outputs none (some f) 1 hc hd]
  rfl

/-- Witness for C10 at a concrete connected model. -/
theorem err_tick_still_publishes_latest_witness :
    tick ⟨some 0, []⟩ none
        (fun _ => [PollRes.okSome [⟨1, 2, 3, 4, 5⟩], PollRes.err, PollRes.okNone]) =
      some ⟨none, [⟨1, 2, 3, 4, 5⟩]⟩ :=
  err_tick_still_publishes_latest ⟨some 0, []⟩ 0 [⟨1, 2, 3, 4, 5⟩] _ rfl rfl

/-- C3: the drain loop breaks only on Ok(None); run against a stream
whose try_next_frame returns Err on every call (a disconnected stream
does exactly this), it does not break within any number of iterations,
so the tick never completes.  The code lacks a break after taking the
stream on Err, contradicting the non-blocking contract of the poll
step. -/
theorem drain_loop_spins_on_repeated_err (stream : Option Conn)
    (latest : Option Frame) (fuel : Nat) :
    drainLoopSeq stream latest (fun _ => PollRes.err) fuel = none := by
  induction fuel generalizing stream latest with
  | zero => rfl
  | succ n ih => simpa [drainLoopSeq] using ih none latest

/-- C2 counterexample: from Idle with a pending connection whose very
first poll errors, the post-tick state is Idle again (stream field
`none`), not Connected as the claim states. -/
theorem idle_pending_err_tick_counterexample :
    tick ⟨none, []⟩ (some 0) (fun _ => [PollRes.err, PollRes.okNone]) =
      some ⟨none, []⟩ := rfl

/-- C2 (amended): in a tick whose drain breaks, (a) from Idle with a
pending connection, if no Err is drained the post-tick state is
Connected to that connection, and (b) from Connected, if an Err is
drained the post-tick state is Idle and the connection is released
exactly once. -/
theorem lifecycle_transitions (m : Model) (c : Conn)
    (outputs : Conn → List PollRes) (hb : PollRes.okNone ∈ outputs c) :
    (m.stream = none → PollRes.err ∉ consumed (outputs c) →
      ∃ m', tick m (some c) outputs = some m' ∧ m'.stream = some c) ∧
    (m.stream = some c → PollRes.err ∈ consumed (outputs c) →
      ∃ m', tick m none outputs = some m' ∧ m'.stream = none ∧
        tickReleases m none outputs = 1) := by
  constructor
  · intro _ hne
    obtain ⟨l2, hd⟩ := drainLoop_no_err (some c) none 0 (outputs c) hb hne
    refine ⟨{ stream := some c, framePoints := l2.getD m.framePoints }, ?_, rfl⟩
    rw [tick, tickFull_connected m c (some c) outputs (some c) l2 0 rfl hd]
    rfl
  · intro hs he
    obtain ⟨l2, hd⟩ := drainLoop_err c none 0 (outputs c) hb he
    have hc : activeConn m none = some c := by simpa [activeConn] using hs
    refine ⟨{ stream := none, framePoints := l2.getD m.framePoints }, ?_, rfl, ?_⟩
    · rw [tick, tickFull_connected m c none outputs none l2 (0 + 1) hc hd]
      rfl
    · rw [tickReleases, tickFull_connected m c none outputs none l2 (0 + 1) hc hd]
      rfl

/-- Witness for C2 (amended): both transitions at concrete inputs. -/
theorem lifecycle_transitions_witness :
    (∃ m', tick ⟨none, []⟩ (some 0) (fun _ => [PollRes.okNone]) = some m' ∧
        m'.stream = some 0) ∧
    (∃ m', tick ⟨some 0, []⟩ none (fun _ => [PollRes.err, PollRes.okNone]) = some m' ∧
        m'.stream = none ∧
        tickReleases ⟨some 0, []⟩ none (fun _ => [PollRes.err, PollRes.okNone]) = 1) :=
  ⟨(lifecycle_transitions ⟨none, []⟩ 0 (fun _ => [PollRes.okNone]) (by decide)).1 rfl
      (by decide),
    (lifecycle_transitions ⟨some 0, []⟩ 0 (fun _ => [PollRes.err, PollRes.okNone])
      (by decide)).2 rfl (by decide)⟩

/-- C7 counterexample: with stream 1 active and stream 2 pending, a tick
whose first poll of the replacing stream errors ends Idle, so the second
connection did not become the active stream after the tick. -/
theorem replace_oldest_err_counterexample :
    tick ⟨some 1, []⟩ (some 2) (fun _ => [PollRes.err, PollRes.okNone]) =
      some ⟨none, []⟩ := rfl

/-- C7 (amended): a pending connection received while Connected replaces
the current one: the post-tick stream is never the old connection, the
tick result does not depend on the old connection output (no further
frames from it are published), and if the new stream drains without an
Err this tick, it is the active stream afterwards. -/
theorem replace_oldest (m : Model) (c1 c2 : Conn)
    (outputs outputs2 : Conn → List PollRes) (_hs : m.stream = some c1)
    (hne : c1 ≠ c2) (hb : PollRes.okNone ∈ outputs c2) :
    (∀ m', tick m (some c2) outputs = some m' → m'.stream ≠ some c1) ∧
    (outputs c2 = outputs2 c2 →
      tick m (some c2) outputs = tick m (some c2) outputs2) ∧
    (PollRes.err ∉ consumed (outputs c2) →
      ∃ m', tick m (some c2) outputs = some m' ∧ m'.stream = some c2) := by
  refine ⟨?_, ?_, ?_⟩
  · intro m' hm' hcon
    obtain ⟨latest, k, hd, _⟩ := tick_some_inv m c2 (some c2) outputs m' rfl hm'
    rcases drainLoop_stream_cases (some c2) none 0 (outputs c2) m'.stream latest k hd
      with h | h
    · rw [hcon] at h
      exact hne (Option.some.inj h)
    · rw [hcon] at h
      exact Option.noConfusion h
  · intro hsame
    cases hd : drainLoop (some c2) none 0 (outputs c2) with
    | none =>
      rw [tick, tickFull_stuck m c2 (some c2) outputs rfl hd, tick,
        tickFull_stuck m c2 (some c2) outputs2 rfl (hsame ▸ hd)]
    | some t =>
      obtain ⟨st, l, k⟩ := t
      rw [tick, tickFull_connected m c2 (some c2) outputs st l k rfl hd, tick,
        tickFull_connected m c2 (some c2) outputs2 st l k rfl (hsame ▸ hd)]
  · intro hnerr
    obtain ⟨l2, hd⟩ := drainLoop_no_err (some c2) none 0 (outputs c2) hb hnerr
    refine ⟨{ stream := some c2, framePoints := l2.getD m.framePoints }, ?_, rfl⟩
    rw [tick, tickFull_connected m c2 (some c2) outputs (some c2) l2 0 rfl hd]
    rfl

/-- Witness for C7 (amended): a clean replacement at concrete inputs. -/
theorem replace_oldest_witness :
    ∃ m', tick ⟨some 1, []⟩ (some 2) (fun _ => [PollRes.okNone]) = some m' ∧
      m'.stream = some 2 :=
  (replace_oldest ⟨some 1, []⟩ 1 2 (fun _ => [PollRes.okNone])
    (fun _ => [PollRes.okNone]) rfl (by decide) (by decide)).2.2 (by decide)

/-- C8: a tick that drains no Ok(Some) result, including every Idle tick
and ticks seeing only Ok(None) or Err, leaves the displayed frame points
unchanged; loss of connection freezes the display on the last frame
shown. -/
theorem no_frame_drained_display_unchanged (m m' : Model) (pending : Option Conn)
    (outputs : Conn → List PollRes)
    (hdone : tick m pending outputs = some m')
    (hnf : ∀ f, PollRes.okSome f ∉ tickConsumed m pending outputs) :
    m'.framePoints = m.framePoints := by
  cases hc : activeConn m pending with
  | none =>
    rw [tick, tickFull_idle m pending outputs hc] at hdone
    simp only [Option.map_some', Option.some.injEq] at hdone
    rw [← hdone]
  | some c =>
    obtain ⟨latest, k, hd, hfp⟩ := tick_some_inv m c pending outputs m' hc hdone
    have hnf2 : ∀ f, PollRes.okSome f ∉ consumed (outputs c) := by
      intro f
      have hf := hnf f
      simpa only [tickConsumed, hc] using hf
    have hl : latest = none :=
      drainLoop_latest_of_no_frame (some c) none 0 (outputs c) m'.stream latest k hd hnf2
    rw [hfp, hl]
    rfl

/-- Witness for C8: a connected tick that sees only Ok(None) keeps the
displayed points. -/
theorem no_frame_drained_display_unchanged_witness :
    (Model.mk (some 0) [(⟨1, 2, 3, 4, 5⟩ : DacPoint)]).framePoints =
      (Model.mk (some 0) [(⟨1, 2, 3, 4, 5⟩ : DacPoint)]).framePoints :=
  no_frame_drained_display_unchanged ⟨some 0, [⟨1, 2, 3, 4, 5⟩]⟩
    ⟨some 0, [⟨1, 2, 3, 4, 5⟩]⟩ none (fun _ => [PollRes.okNone]) rfl
    (by
      intro f h
      simp [tickConsumed, activeConn, consumed] at h)

/-- C4 counterexample: the hand-off channel of the code is created by
`mpsc::channel()`: after pushing connection 0, pushing connection 1
succeeds immediately with nothing consumed and both sit in the queue,
whereas the bounded capacity-1 channel of the claim would block the
second send until the first was received. -/
theorem handoff_send_never_blocks_counterexample :
    Channel.send (Channel.send ([] : Channel) 0) 1 = [0, 1] ∧
    boundedSend 1 (Channel.send ([] : Channel) 0) 1 = none :=
  ⟨rfl, rfl⟩

/-- C4 (amended): the hand-off channel is unbounded and asynchronous:
a send always succeeds whatever the queue already holds, so the Acceptor
never blocks, and connections are received in FIFO order. -/
theorem handoff_channel_unbounded_fifo (q : Channel) (c c1 c2 : Conn) :
    (Channel.send q c).length = q.length + 1 ∧
    Channel.tryRecv (Channel.send (Channel.send [] c1) c2) = (some c1, [c2]) ∧
    Channel.tryRecv [c2] = (some c2, ([] : Channel)) :=
  ⟨by simp [Channel.send], rfl, rfl⟩

/-- C5: `convert_point` computes `px = x / 32767 * scaleX`,
`py = y / 32767 * scaleY`, `r = r / 65535`, `g = g / 65535`,
`b = b / 65535` for the caller-supplied half-extents, as a pure total
function; at the sample (32767, -32768, 65535, 0, 32768) the output is
`scaleX`, approximately `-scaleY`, 1, 0 and approximately 1/2, within
the stated tolerances. -/
theorem convert_point_normalizes (pt : DacPoint) (sx sy : ℚ) (hsy : 0 ≤ sy) :
    ((convert_point (2 * sx) (2 * sy) pt).px = (pt.x : ℚ) / 32767 * sx ∧
      (convert_point (2 * sx) (2 * sy) pt).py = (pt.y : ℚ) / 32767 * sy ∧
      (convert_point (2 * sx) (2 * sy) pt).r = (pt.r : ℚ) / 65535 ∧
      (convert_point (2 * sx) (2 * sy) pt).g = (pt.g : ℚ) / 65535 ∧
      (convert_point (2 * sx) (2 * sy) pt).b = (pt.b : ℚ) / 65535) ∧
    ((convert_point (2 * sx) (2 * sy) ⟨32767, -32768, 65535, 0, 32768⟩).px = sx ∧
      |(convert_point (2 * sx) (2 * sy) ⟨32767, -32768, 65535, 0, 32768⟩).py + sy| ≤
        sy / 32767 ∧
      (convert_point (2 * sx) (2 * sy) ⟨32767, -32768, 65535, 0, 32768⟩).r = 1 ∧
      (convert_point (2 * sx) (2 * sy) ⟨32767, -32768, 65535, 0, 32768⟩).g = 0 ∧
      |(convert_point (2 * sx) (2 * sy) ⟨32767, -32768, 65535, 0, 32768⟩).b - 1 / 2| <
        1 / 65535) := by
  constructor
  · refine ⟨?_, ?_, ?_, ?_, ?_⟩ <;>
      · simp only [convert_point, t_x, t_y, t_color, tNormPos]
        try ring
  · have hpy : (convert_point (2 * sx) (2 * sy) ⟨32767, -32768, 65535, 0, 32768⟩).py + sy
        = -(sy / 32767) := by
      simp only [convert_point, t_y, tNormPos]
      push_cast
      field_simp
      ring
    have hb32 : (convert_point (2 * sx) (2 * sy) ⟨32767, -32768, 65535, 0, 32768⟩).b
        = 32768 / 65535 := by
      norm_num [convert_point, t_color]
    refine ⟨?_, ?_, ?_, ?_, ?_⟩
    · simp only [convert_point, t_x, tNormPos]
      push_cast
      field_simp
      try ring
    · rw [hpy, abs_neg, abs_of_nonneg (by positivity)]
    · norm_num [convert_point, t_color]
    · norm_num [convert_point, t_color]
    · rw [hb32, abs_of_nonneg (by norm_num)]
      norm_num

/-- Witness for C5 at half-extents 3 and 5. -/
theorem convert_point_normalizes_witness :
    (convert_point (2 * 3) (2 * 5) ⟨32767, -32768, 65535, 0, 32768⟩).px = 3 ∧
    |(convert_point (2 * 3) (2 * 5) ⟨32767, -32768, 65535, 0, 32768⟩).py + 5| ≤
      5 / 32767 :=
  ⟨(convert_point_normalizes ⟨32767, -32768, 65535, 0, 32768⟩ 3 5 (by norm_num)).2.1,
    (convert_point_normalizes ⟨32767, -32768, 65535, 0, 32768⟩ 3 5 (by norm_num)).2.2.1⟩

/-- C6 counterexample: at x = -32768 the pre-scaling normalized position
x / 32767 is strictly below -1, outside the claimed range [-1, 1]. -/
theorem norm_pos_below_neg_one : tNormPos (-32768) < -1 := by
  norm_num [tNormPos]

/-- C6 (amended): over the full native ranges, the pre-scaling
normalized position lies in [-32768/32767, 1] (the lower end slightly
below -1, attained at -32768), and each normalized colour component lies
in [0, 1]. -/
theorem normalized_ranges (xi : Int) (cc : Nat) (hlo : -32768 ≤ xi)
    (hhi : xi ≤ 32767) (hcc : cc ≤ 65535) :
    -(32768 / 32767 : ℚ) ≤ tNormPos xi ∧ tNormPos xi ≤ 1 ∧
    0 ≤ t_color cc ∧ t_color cc ≤ 1 := by
  have h32 : (0 : ℚ) < 32767 := by norm_num
  refine ⟨?_, ?_, ?_, ?_⟩
  · have hcast : (-32768 : ℚ) ≤ (xi : ℚ) := by exact_mod_cast hlo
    rw [tNormPos, show -(32768 / 32767 : ℚ) = (-32768) / 32767 by ring]
    exact (div_le_div_iff_of_pos_right h32).mpr hcast
  · have hcast : (xi : ℚ) ≤ 32767 := by exact_mod_cast hhi
    rw [tNormPos, div_le_one h32]
    exact hcast
  · rw [t_color]
    positivity
  · have hcast : (cc : ℚ) ≤ 65535 := by exact_mod_cast hcc
    rw [t_color, div_le_one (by norm_num : (0 : ℚ) < 65535)]
    exact hcast

/-- Witness for C6 (amended) at the extreme sample values. -/
theorem normalized_ranges_witness :
    -(32768 / 32767 : ℚ) ≤ tNormPos (-32768) ∧ tNormPos (-32768) ≤ 1 ∧
    0 ≤ t_color 65535 ∧ t_color 65535 ≤ 1 :=
  normalized_ranges (-32768) 65535 (by norm_num) (by norm_num) (by norm_num)

/-- `windows(2)` produces one window per consecutive pair. -/
theorem windows2_length (pts : List DacPoint) :
    (windows2 pts).length = pts.length - 1 := by
  induction pts with
  | nil => rfl
  | cons p rest ih =>
    cases rest with
    | nil => rfl
    | cons q rest2 =>
      simp only [windows2, List.length_cons] at ih ⊢
      omega

/-- The i-th window of `windows(2)` is the pair of samples i and i+1. -/
theorem windows2_get (pts : List DacPoint) (i : Nat) (a b : DacPoint)
    (ha : pts[i]? = some a) (hb : pts[i + 1]? = some b) :
    (windows2 pts)[i]? = some (a, b) := by
  induction pts generalizing i with
  | nil => simp at ha
  | cons p rest ih =>
    cases rest with
    | nil =>
      rcases i with _ | j <;> simp at hb
    | cons q rest2 =>
      cases i with
      | zero =>
        simp only [List.getElem?_cons_zero, Option.some.injEq] at ha
        simp only [List.getElem?_cons_succ, List.getElem?_cons_zero,
          Option.some.injEq] at hb
        subst ha
        subst hb
        simp [windows2]
      | succ j =>
        rw [List.getElem?_cons_succ] at ha hb
        simpa [windows2] using ih j ha hb

/-- C9: for a displayed frame of n samples, `view` emits exactly n - 1
segments (0 when n has no pair), segment i joining sample i to sample
i + 1 and coloured with the normalized colour of sample i only. -/
theorem view_segments_consecutive_pairs (w h : ℚ) (pts : List DacPoint) :
    (view w h pts).length = pts.length - 1 ∧
    ∀ i a b, pts[i]? = some a → pts[i + 1]? = some b →
      (view w h pts)[i]? = some (mkSeg w h a b) := by
  constructor
  · simp [view, windows2_length]
  · intro i a b ha hb
    simp [view, windows2_get pts i a b ha hb]

/-- Witness for C9 on a two-sample frame. -/
theorem view_segments_consecutive_pairs_witness :
    (view 2 2 [⟨1, 2, 3, 4, 5⟩, ⟨6, 7, 8, 9, 10⟩]).length = 1 ∧
    (view 2 2 [⟨1, 2, 3, 4, 5⟩, ⟨6, 7, 8, 9, 10⟩])[0]? =
      some (mkSeg 2 2 ⟨1, 2, 3, 4, 5⟩ ⟨6, 7, 8, 9, 10⟩) :=
  ⟨(view_segments_consecutive_pairs 2 2 [⟨1, 2, 3, 4, 5⟩, ⟨6, 7, 8, 9, 10⟩]).1,
    (view_segments_consecutive_pairs 2 2 [⟨1, 2, 3, 4, 5⟩, ⟨6, 7, 8, 9, 10⟩]).2 0
      ⟨1, 2, 3, 4, 5⟩ ⟨6, 7, 8, 9, 10⟩ rfl rfl⟩

end Visualiser
